import Mathlib

/-!
Verification of the rendering-engine repository (headless-browser chart
rendering service) against its natural-language specification.

The development shallowly embeds the relevant Rust source:
* `src/core/template.rs`  — page composition (`generate_html`), the JSON
  payload escaping chain, CDN URL resolution;
* `src/registry.rs`       — the library registry (note: `src/core/registry.rs`
  is absent from the sources; `src/registry.rs` is its in-repo sibling and is
  the file the claims cite for the registry contents);
* `src/core/renderer.rs`  — the browser pool (`BrowserPool::new/acquire/release`),
  the readiness poll (`wait_for_render_ready`), the base64 facade
  (`render_base64`), and the post-ready delay;
* `src/schemas/render.rs` — the request schema.

Strings are modelled as `List Char`.  Characters that the text-level rules of
this file make awkward to write literally are defined once, by code point,
below.
-/

namespace RenderVerify

set_option maxRecDepth 16384

/-- Backslash character. -/
def bsC : Char := Char.ofNat 92

/-- Backtick character. -/
def btC : Char := Char.ofNat 96

/-- Dollar character. -/
def dolC : Char := Char.ofNat 36

/-- Opening curly brace character. -/
def obC : Char := Char.ofNat 123

/-- Closing curly brace character. -/
def cbC : Char := Char.ofNat 125

/-- Double quote character. -/
def qC : Char := Char.ofNat 34

/-- Single quote character. -/
def sqC : Char := Char.ofNat 39

/-!
## Embedding of Rust `str::replace`

`replaceGo` is the scanner of Rust's `str::replace` for a non-empty pattern:
it walks the haystack left to right, replacing non-overlapping occurrences of
the pattern and resuming immediately after each replaced occurrence.
`replaceList pat rep s` is `s.replace(pat, rep)`; the code under verification
never calls `replace` with an empty pattern, for which we return `s`.
-/

def replaceFuel (p : Char) (ps rep : List Char) : Nat → List Char → List Char
  | 0, s => s
  | _ + 1, [] => []
  | fuel + 1, c :: cs =>
    if (p :: ps).isPrefixOf (c :: cs) then
      rep ++ replaceFuel p ps rep fuel (cs.drop ps.length)
    else
      c :: replaceFuel p ps rep fuel cs

/-- The scanner, run with enough fuel to consume the whole haystack. -/
def replaceGo (p : Char) (ps rep : List Char) (s : List Char) : List Char :=
  replaceFuel p ps rep s.length s

def replaceList (pat rep s : List Char) : List Char :=
  match pat with
  | [] => s
  | p :: ps => replaceGo p ps rep s

theorem replaceFuel_cons (p : Char) (ps rep : List Char) (fuel : Nat) (c : Char)
    (cs : List Char) :
    replaceFuel p ps rep (fuel + 1) (c :: cs) =
      if (p :: ps).isPrefixOf (c :: cs) then
        rep ++ replaceFuel p ps rep fuel (cs.drop ps.length)
      else
        c :: replaceFuel p ps rep fuel cs := rfl

/-- The scanner's result does not depend on the fuel, as long as the fuel
covers the haystack. -/
theorem replaceFuel_congr (p : Char) (ps rep : List Char) :
    ∀ n fuel1 fuel2 (s : List Char), s.length ≤ n →
      s.length ≤ fuel1 → s.length ≤ fuel2 →
      replaceFuel p ps rep fuel1 s = replaceFuel p ps rep fuel2 s := by
  intro n
  induction n with
  | zero =>
    intro f1 f2 s hs _ _
    have hnil : s = [] := List.eq_nil_of_length_eq_zero (Nat.le_zero.mp hs)
    subst hnil
    cases f1 <;> cases f2 <;> rfl
  | succ n ih =>
    intro f1 f2 s hs h1 h2
    cases s with
    | nil => cases f1 <;> cases f2 <;> rfl
    | cons c cs =>
      simp only [List.length_cons] at hs h1 h2
      obtain ⟨f1', rfl⟩ : ∃ k, f1 = k + 1 := ⟨f1 - 1, by omega⟩
      obtain ⟨f2', rfl⟩ : ∃ k, f2 = k + 1 := ⟨f2 - 1, by omega⟩
      rw [replaceFuel_cons, replaceFuel_cons]
      by_cases hp : (p :: ps).isPrefixOf (c :: cs) = true
      · rw [if_pos hp, if_pos hp]
        have hd : (cs.drop ps.length).length ≤ n := by
          simp only [List.length_drop]
          omega
        rw [ih f1' f2' (cs.drop ps.length) hd
          (by simp only [List.length_drop]; omega)
          (by simp only [List.length_drop]; omega)]
      · rw [if_neg hp, if_neg hp]
        rw [ih f1' f2' cs (by omega) (by omega) (by omega)]

theorem replaceGo_nil (p : Char) (ps rep : List Char) : replaceGo p ps rep [] = [] := rfl

theorem replaceGo_pos (p : Char) (ps rep : List Char) (c : Char) (cs : List Char)
    (h : (p :: ps).isPrefixOf (c :: cs) = true) :
    replaceGo p ps rep (c :: cs) = rep ++ replaceGo p ps rep (cs.drop ps.length) := by
  unfold replaceGo
  simp only [List.length_cons]
  rw [replaceFuel_cons, if_pos h]
  congr 1
  exact replaceFuel_congr p ps rep cs.length cs.length (cs.drop ps.length).length
    (cs.drop ps.length) (by simp only [List.length_drop]; omega)
    (by simp only [List.length_drop]; omega) le_rfl

theorem replaceGo_neg (p : Char) (ps rep : List Char) (c : Char) (cs : List Char)
    (h : ¬ (p :: ps).isPrefixOf (c :: cs) = true) :
    replaceGo p ps rep (c :: cs) = c :: replaceGo p ps rep cs := by
  unfold replaceGo
  simp only [List.length_cons]
  rw [replaceFuel_cons, if_neg h]

/-- Single-character patterns: `replace` is a per-character expansion. -/
theorem replaceList_single (a : Char) (rep s : List Char) :
    replaceList [a] rep s = s.flatMap (fun c => if c = a then rep else [c]) := by
  induction s with
  | nil => simp [replaceList, replaceGo_nil]
  | cons c cs ih =>
    by_cases h : c = a
    · subst h
      have hp : ([c] : List Char).isPrefixOf (c :: cs) = true := by
        simp [List.isPrefixOf]
      simp [replaceList] at ih ⊢
      rw [replaceGo_pos _ _ _ _ _ hp]
      simp [ih]
    · have hp : ¬ ([a] : List Char).isPrefixOf (c :: cs) = true := by
        simp [List.isPrefixOf]
        exact fun hc => absurd hc.symm h
      simp [replaceList] at ih ⊢
      rw [replaceGo_neg _ _ _ _ _ hp]
      simp [ih, h]

/-!
## The composer's payload escaping (`core/template.rs` lines 86-89)

```rust
let data_json_escaped = data_json
    .replace("\x5c", "\x5c\x5c")
    .replace("\x60", "\x5c\x60")
    .replace("$\x7b", "\x5c$\x7b");
```
i.e. double every backslash, then escape every backtick, then escape every
dollar-brace.  This is JavaScript template-literal escaping.
-/

def escapeData (s : List Char) : List Char :=
  replaceList [dolC, obC] [bsC, dolC, obC]
    (replaceList [btC] [bsC, btC]
      (replaceList [bsC] [bsC, bsC] s))

/-- Single-pass characterization of the first two replacement passes. -/
def escPair (c : Char) : List Char :=
  if c = bsC then [bsC, bsC] else if c = btC then [bsC, btC] else [c]

/-- Single-pass characterization of the whole escaping chain. -/
def escSpec (s : List Char) : List Char :=
  match s with
  | [] => []
  | c :: t =>
    if c = bsC then bsC :: bsC :: escSpec t
    else if c = btC then bsC :: btC :: escSpec t
    else if c = dolC then
      match t with
      | [] => [dolC]
      | d :: t' =>
        if d = obC then bsC :: dolC :: obC :: escSpec t'
        else dolC :: escSpec (d :: t')
    else c :: escSpec t

theorem escSpec_nil : escSpec [] = [] := by
  rw [escSpec.eq_def]

theorem escSpec_bs (t : List Char) : escSpec (bsC :: t) = bsC :: bsC :: escSpec t := by
  rw [escSpec.eq_def]
  dsimp only
  rw [if_pos rfl]

theorem escSpec_bt (t : List Char) : escSpec (btC :: t) = bsC :: btC :: escSpec t := by
  rw [escSpec.eq_def]
  dsimp only
  rw [if_neg (by decide), if_pos rfl]

theorem escSpec_dol_nil : escSpec [dolC] = [dolC] := by
  rw [escSpec.eq_def]
  dsimp only
  rw [if_neg (by decide), if_neg (by decide), if_pos rfl]

theorem escSpec_dol_ob (t' : List Char) :
    escSpec (dolC :: obC :: t') = bsC :: dolC :: obC :: escSpec t' := by
  rw [escSpec.eq_def]
  dsimp only
  rw [if_neg (by decide), if_neg (by decide), if_pos rfl, if_pos rfl]

theorem escSpec_dol_other (d : Char) (t' : List Char) (hd : d ≠ obC) :
    escSpec (dolC :: d :: t') = dolC :: escSpec (d :: t') := by
  rw [escSpec.eq_def]
  dsimp only
  rw [if_neg (by decide), if_neg (by decide), if_pos rfl, if_neg hd]

theorem escSpec_other (c : Char) (t : List Char)
    (h1 : c ≠ bsC) (h2 : c ≠ btC) (h3 : c ≠ dolC) :
    escSpec (c :: t) = c :: escSpec t := by
  rw [escSpec.eq_def]
  dsimp only
  rw [if_neg h1, if_neg h2, if_neg h3]

/-- A non-empty pattern whose head differs from the haystack head is no prefix. -/
theorem isPrefixOf_cons_neq (p c : Char) (ps X : List Char) (h : p ≠ c) :
    (p :: ps).isPrefixOf (c :: X) = false := by
  simp [List.isPrefixOf, h]

theorem isPrefixOf_dolOb_pos (X : List Char) :
    ([dolC, obC] : List Char).isPrefixOf (dolC :: obC :: X) = true := by
  simp [List.isPrefixOf]

theorem isPrefixOf_dolOb_head (x : Char) (xs : List Char) (hx : x ≠ obC) :
    ([dolC, obC] : List Char).isPrefixOf (dolC :: x :: xs) = false := by
  simp [List.isPrefixOf, Ne.symm hx]

theorem isPrefixOf_dolOb_nil :
    ([dolC, obC] : List Char).isPrefixOf [dolC] = false := by
  simp [List.isPrefixOf]

/-- The first two passes compose into the per-character expansion `escPair`. -/
theorem replace_two_passes (s : List Char) :
    replaceList [btC] [bsC, btC] (replaceList [bsC] [bsC, bsC] s) =
      s.flatMap escPair := by
  rw [replaceList_single, replaceList_single]
  induction s with
  | nil => simp
  | cons c cs ih =>
    simp only [List.flatMap_cons, List.flatMap_append, ih]
    congr 1
    by_cases h1 : c = bsC
    · subst h1
      simp [escPair, (by decide : bsC ≠ btC)]
    · by_cases h2 : c = btC
      · subst h2
        simp [escPair, (by decide : ¬ btC = bsC)]
      · simp [escPair, h1, h2]

theorem escPair_bs : escPair bsC = [bsC, bsC] := by
  simp [escPair]

theorem escPair_bt : escPair btC = [bsC, btC] := by
  simp [escPair, (by decide : ¬ btC = bsC)]

theorem escPair_other (c : Char) (h1 : c ≠ bsC) (h2 : c ≠ btC) : escPair c = [c] := by
  simp [escPair, h1, h2]

theorem flatMap_escPair_head_ob (t : List Char)
    (h : (t.flatMap escPair).head? = some obC) : t.head? = some obC := by
  cases t with
  | nil => simp at h
  | cons c cs =>
    by_cases h1 : c = bsC
    · subst h1
      simp only [List.flatMap_cons, escPair_bs, List.cons_append, List.head?_cons] at h
      exact absurd h (by decide)
    · by_cases h2 : c = btC
      · subst h2
        simp only [List.flatMap_cons, escPair_bt, List.cons_append, List.head?_cons] at h
        exact absurd h (by decide)
      · simp only [List.flatMap_cons, escPair_other c h1 h2, List.cons_append,
          List.head?_cons] at h
        simp only [List.head?_cons]
        exact h

/-- A `= false` form of `replaceGo`'s skip step. -/
theorem replaceGo_skip (p : Char) (ps rep : List Char) (c : Char) (cs : List Char)
    (h : (p :: ps).isPrefixOf (c :: cs) = false) :
    replaceGo p ps rep (c :: cs) = c :: replaceGo p ps rep cs :=
  replaceGo_neg _ _ _ _ _ (by simp [h])

theorem isPrefixOf_dolOb_flatMap (d : Char) (t' : List Char) (hd : d ≠ obC) :
    ([dolC, obC] : List Char).isPrefixOf
      (dolC :: (escPair d ++ t'.flatMap escPair)) = false := by
  cases hZ : escPair d ++ t'.flatMap escPair with
  | nil => exact isPrefixOf_dolOb_nil
  | cons x xs =>
    apply isPrefixOf_dolOb_head
    intro hx
    subst hx
    have hh : ((d :: t').flatMap escPair).head? = some obC := by
      simp only [List.flatMap_cons, hZ, List.head?_cons]
    have h2 := flatMap_escPair_head_ob (d :: t') hh
    simp only [List.head?_cons, Option.some.injEq] at h2
    exact hd h2

/-- The dollar-brace pass over the two-pass image yields the single-pass form. -/
theorem replace_third_pass : ∀ n s, s.length ≤ n →
    replaceGo dolC [obC] [bsC, dolC, obC] (s.flatMap escPair) = escSpec s := by
  intro n
  induction n with
  | zero =>
    intro s hs
    have hs0 : s = [] := List.eq_nil_of_length_eq_zero (Nat.le_zero.mp hs)
    subst hs0
    simp [replaceGo_nil, escSpec_nil]
  | succ n ih =>
    intro s hs
    cases s with
    | nil => simp [replaceGo_nil, escSpec_nil]
    | cons c t =>
      have ht : t.length ≤ n := by
        simp only [List.length_cons] at hs
        omega
      by_cases h1 : c = bsC
      · subst h1
        simp only [List.flatMap_cons, escPair_bs, List.cons_append, List.nil_append]
        rw [replaceGo_skip _ _ _ _ _ (isPrefixOf_cons_neq _ _ _ _ (by decide))]
        rw [replaceGo_skip _ _ _ _ _ (isPrefixOf_cons_neq _ _ _ _ (by decide))]
        rw [ih t ht, escSpec_bs]
      · by_cases h2 : c = btC
        · subst h2
          simp only [List.flatMap_cons, escPair_bt, List.cons_append, List.nil_append]
          rw [replaceGo_skip _ _ _ _ _ (isPrefixOf_cons_neq _ _ _ _ (by decide))]
          rw [replaceGo_skip _ _ _ _ _ (isPrefixOf_cons_neq _ _ _ _ (by decide))]
          rw [ih t ht, escSpec_bt]
        · by_cases h3 : c = dolC
          · subst h3
            cases t with
            | nil =>
              simp only [List.flatMap_cons, List.flatMap_nil, List.append_nil]
              rw [escPair_other dolC (by decide) (by decide)]
              rw [replaceGo_skip _ _ _ _ _ isPrefixOf_dolOb_nil]
              rw [replaceGo_nil, escSpec_dol_nil]
            | cons d t' =>
              by_cases hd : d = obC
              · subst hd
                simp only [List.flatMap_cons, escPair_other dolC (by decide) (by decide),
                  escPair_other obC (by decide) (by decide), List.cons_append,
                  List.nil_append]
                rw [replaceGo_pos _ _ _ _ _ (isPrefixOf_dolOb_pos _)]
                simp only [List.length_cons, List.length_nil, List.drop_succ_cons,
                  List.drop_zero]
                have ht' : t'.length ≤ n := by
                  simp only [List.length_cons] at hs
                  omega
                rw [ih t' ht', escSpec_dol_ob]
                rfl
              · simp only [List.flatMap_cons, escPair_other dolC (by decide) (by decide),
                  List.cons_append, List.nil_append]
                rw [replaceGo_skip _ _ _ _ _ (isPrefixOf_dolOb_flatMap d t' hd)]
                have hdt : (d :: t').length ≤ n := by
                  simp only [List.length_cons] at hs ⊢
                  omega
                have := ih (d :: t') hdt
                simp only [List.flatMap_cons] at this
                rw [this, escSpec_dol_other d t' hd]
          · simp only [List.flatMap_cons, escPair_other c h1 h2, List.cons_append,
              List.nil_append]
            rw [replaceGo_skip _ _ _ _ _ (isPrefixOf_cons_neq _ _ _ _ (Ne.symm h3))]
            rw [ih t ht, escSpec_other c t h1 h2 h3]

/-- The source's three-pass escape chain equals the single-pass `escSpec`. -/
theorem escapeData_eq_escSpec (s : List Char) : escapeData s = escSpec s := by
  unfold escapeData
  rw [replace_two_passes]
  exact replace_third_pass s.length s le_rfl

/-!
## JavaScript template-literal reading of the embedded payload

The composed page hands the escaped payload to the browser inside a
template literal (see the init-script modelling below).  `tlScan` computes
the cooked value the JavaScript lexer assigns to the payload region:
* an unescaped backtick terminates the literal early (break-out), result
  `none`;
* an unescaped dollar-brace starts a substitution (break-out), result `none`;
* a trailing lone backslash escapes the literal's closing delimiter
  (break-out), result `none`;
* a backslash escape contributes the cooked character (`escCooked`; the
  single-letter JavaScript escapes are modelled, which covers every escape
  the composer can emit, namely backslash, backtick and dollar).
-/

def escCooked (d : Char) : Char :=
  if d = Char.ofNat 110 then Char.ofNat 10
  else if d = Char.ofNat 116 then Char.ofNat 9
  else if d = Char.ofNat 114 then Char.ofNat 13
  else if d = Char.ofNat 98 then Char.ofNat 8
  else if d = Char.ofNat 102 then Char.ofNat 12
  else if d = Char.ofNat 118 then Char.ofNat 11
  else if d = Char.ofNat 48 then Char.ofNat 0
  else d

def tlScan (s : List Char) : Option (List Char) :=
  match s with
  | [] => some []
  | [c] => if c = btC ∨ c = bsC then none else some [c]
  | c :: d :: t =>
    if c = btC then none
    else if c = bsC then (tlScan t).map (fun r => escCooked d :: r)
    else if c = dolC ∧ d = obC then none
    else (tlScan (d :: t)).map (fun r => c :: r)

theorem tlScan_nil : tlScan [] = some [] := by
  rw [tlScan.eq_def]

theorem tlScan_one (c : Char) (h1 : c ≠ btC) (h2 : c ≠ bsC) : tlScan [c] = some [c] := by
  rw [tlScan.eq_def]
  dsimp only
  rw [if_neg (by simp [h1, h2])]

theorem tlScan_cons2_bs (d : Char) (t : List Char) :
    tlScan (bsC :: d :: t) = (tlScan t).map (fun r => escCooked d :: r) := by
  rw [tlScan.eq_def]
  dsimp only
  rw [if_neg (by decide), if_pos rfl]

theorem tlScan_cons2_other (c d : Char) (t : List Char)
    (h1 : c ≠ btC) (h2 : c ≠ bsC) (h3 : ¬ (c = dolC ∧ d = obC)) :
    tlScan (c :: d :: t) = (tlScan (d :: t)).map (fun r => c :: r) := by
  rw [tlScan.eq_def]
  dsimp only
  rw [if_neg h1, if_neg h2, if_neg h3]

/-- A cons with a plain character (not backtick, backslash or dollar) always
scans to the cons of the scan of the rest. -/
theorem tlScan_cons_plain (c : Char) (X : List Char)
    (h1 : c ≠ btC) (h2 : c ≠ bsC) (h3 : c ≠ dolC) :
    tlScan (c :: X) = (tlScan X).map (fun r => c :: r) := by
  cases X with
  | nil => rw [tlScan_one c h1 h2, tlScan_nil]; rfl
  | cons d t =>
    rw [tlScan_cons2_other c d t h1 h2 (fun hc => h3 hc.1)]

/-- A cons with a dollar scans through whenever no brace follows. -/
theorem tlScan_cons_dol (X : List Char) (h : X.head? ≠ some obC) :
    tlScan (dolC :: X) = (tlScan X).map (fun r => dolC :: r) := by
  cases X with
  | nil => rw [tlScan_one dolC (by decide) (by decide), tlScan_nil]; rfl
  | cons d t =>
    have hd : d ≠ obC := by
      intro hc
      exact h (by simp [hc])
    rw [tlScan_cons2_other dolC d t (by decide) (by decide) (fun hc => hd hc.2)]

theorem escSpec_head_ob (u : List Char) (h : (escSpec u).head? = some obC) :
    u.head? = some obC := by
  cases u with
  | nil => rw [escSpec_nil] at h; simp at h
  | cons c t =>
    by_cases h1 : c = bsC
    · subst h1
      rw [escSpec_bs] at h
      exact absurd (by simpa using h) (by decide)
    · by_cases h2 : c = btC
      · subst h2
        rw [escSpec_bt] at h
        exact absurd (by simpa using h) (by decide)
      · by_cases h3 : c = dolC
        · subst h3
          cases t with
          | nil =>
            rw [escSpec_dol_nil] at h
            exact absurd (by simpa using h) (by decide)
          | cons d t' =>
            by_cases hd : d = obC
            · subst hd
              rw [escSpec_dol_ob] at h
              exact absurd (by simpa using h) (by decide)
            · rw [escSpec_dol_other d t' hd] at h
              exact absurd (by simpa using h) (by decide)
        · rw [escSpec_other c t h1 h2 h3] at h
          simpa using h

/-- Round trip: the cooked value of the escaped payload is the original
payload, for every input string.  In particular the escaped payload never
terminates the template literal early and never opens a substitution. -/
theorem tlScan_escSpec : ∀ n s, s.length ≤ n → tlScan (escSpec s) = some s := by
  intro n
  induction n with
  | zero =>
    intro s hs
    have hs0 : s = [] := List.eq_nil_of_length_eq_zero (Nat.le_zero.mp hs)
    subst hs0
    rw [escSpec_nil, tlScan_nil]
  | succ n ih =>
    intro s hs
    cases s with
    | nil => rw [escSpec_nil, tlScan_nil]
    | cons c t =>
      have ht : t.length ≤ n := by
        simp only [List.length_cons] at hs
        omega
      by_cases h1 : c = bsC
      · subst h1
        rw [escSpec_bs, tlScan_cons2_bs, ih t ht]
        simp [escCooked, (by decide : ¬ bsC = Char.ofNat 110),
          (by decide : ¬ bsC = Char.ofNat 116), (by decide : ¬ bsC = Char.ofNat 114),
          (by decide : ¬ bsC = Char.ofNat 98), (by decide : ¬ bsC = Char.ofNat 102),
          (by decide : ¬ bsC = Char.ofNat 118), (by decide : ¬ bsC = Char.ofNat 48)]
      · by_cases h2 : c = btC
        · subst h2
          rw [escSpec_bt, tlScan_cons2_bs, ih t ht]
          simp [escCooked, (by decide : ¬ btC = Char.ofNat 110),
            (by decide : ¬ btC = Char.ofNat 116), (by decide : ¬ btC = Char.ofNat 114),
            (by decide : ¬ btC = Char.ofNat 98), (by decide : ¬ btC = Char.ofNat 102),
            (by decide : ¬ btC = Char.ofNat 118), (by decide : ¬ btC = Char.ofNat 48)]
        · by_cases h3 : c = dolC
          · subst h3
            cases t with
            | nil =>
              rw [escSpec_dol_nil, tlScan_one dolC (by decide) (by decide)]
            | cons d t' =>
              by_cases hd : d = obC
              · subst hd
                have ht' : t'.length ≤ n := by
                  simp only [List.length_cons] at hs
                  omega
                rw [escSpec_dol_ob, tlScan_cons2_bs]
                rw [tlScan_cons_plain obC (escSpec t') (by decide) (by decide) (by decide)]
                rw [ih t' ht']
                simp [escCooked, (by decide : ¬ dolC = Char.ofNat 110),
                  (by decide : ¬ dolC = Char.ofNat 116),
                  (by decide : ¬ dolC = Char.ofNat 114),
                  (by decide : ¬ dolC = Char.ofNat 98),
                  (by decide : ¬ dolC = Char.ofNat 102),
                  (by decide : ¬ dolC = Char.ofNat 118),
                  (by decide : ¬ dolC = Char.ofNat 48)]
              · have hdt : (d :: t').length ≤ n := by
                  simp only [List.length_cons] at hs ⊢
                  omega
                rw [escSpec_dol_other d t' hd]
                rw [tlScan_cons_dol (escSpec (d :: t'))
                  (fun hh => hd (by simpa using escSpec_head_ob (d :: t') hh))]
                rw [ih (d :: t') hdt]
                rfl
          · rw [escSpec_other c t h1 h2 h3]
            rw [tlScan_cons_plain c (escSpec t) h2 h1 h3]
            rw [ih t ht]
            rfl

/-!
## The escaping chain cannot create new occurrences of escape-free patterns

For any pattern containing neither backslash, backtick nor dollar (such as
the script-closing tag or the width/height tokens), an occurrence in the
escaped payload maps back to an occurrence in the raw payload.
-/

theorem prefix_escSpec : ∀ n (p u : List Char),
    bsC ∉ p → btC ∉ p → dolC ∉ p → u.length ≤ n → p <+: escSpec u → p <+: u := by
  intro n
  induction n with
  | zero =>
    intro p u _ _ _ hu hpre
    have hu0 : u = [] := List.eq_nil_of_length_eq_zero (Nat.le_zero.mp hu)
    subst hu0
    rw [escSpec_nil] at hpre
    exact hpre
  | succ n ih =>
    intro p u hbs hbt hdol hu hpre
    cases u with
    | nil =>
      rw [escSpec_nil] at hpre
      exact hpre
    | cons c t =>
      have ht : t.length ≤ n := by
        simp only [List.length_cons] at hu
        omega
      cases p with
      | nil => exact List.nil_prefix
      | cons a p' =>
        by_cases h1 : c = bsC
        · subst h1
          rw [escSpec_bs] at hpre
          rw [List.cons_prefix_cons] at hpre
          exact absurd hpre.1 (fun ha => hbs (ha ▸ List.mem_cons_self a p'))
        · by_cases h2 : c = btC
          · subst h2
            rw [escSpec_bt] at hpre
            rw [List.cons_prefix_cons] at hpre
            exact absurd hpre.1 (fun ha => hbs (ha ▸ List.mem_cons_self a p'))
          · by_cases h3 : c = dolC
            · subst h3
              cases t with
              | nil =>
                rw [escSpec_dol_nil] at hpre
                rw [List.cons_prefix_cons] at hpre
                exact absurd hpre.1 (fun ha => hdol (ha ▸ List.mem_cons_self a p'))
              | cons d t' =>
                by_cases hd : d = obC
                · subst hd
                  rw [escSpec_dol_ob] at hpre
                  rw [List.cons_prefix_cons] at hpre
                  exact absurd hpre.1 (fun ha => hbs (ha ▸ List.mem_cons_self a p'))
                · rw [escSpec_dol_other d t' hd] at hpre
                  rw [List.cons_prefix_cons] at hpre
                  exact absurd hpre.1 (fun ha => hdol (ha ▸ List.mem_cons_self a p'))
            · rw [escSpec_other c t h1 h2 h3] at hpre
              rw [List.cons_prefix_cons] at hpre
              obtain ⟨hac, hp'⟩ := hpre
              subst hac
              rw [List.cons_prefix_cons]
              refine ⟨rfl, ih p' t ?_ ?_ ?_ ht hp'⟩
              · exact fun hm => hbs (List.mem_cons_of_mem _ hm)
              · exact fun hm => hbt (List.mem_cons_of_mem _ hm)
              · exact fun hm => hdol (List.mem_cons_of_mem _ hm)

theorem infix_escSpec : ∀ n (p u : List Char),
    bsC ∉ p → btC ∉ p → dolC ∉ p → u.length ≤ n → p <:+: escSpec u → p <:+: u := by
  intro n
  induction n with
  | zero =>
    intro p u _ _ _ hu hinf
    have hu0 : u = [] := List.eq_nil_of_length_eq_zero (Nat.le_zero.mp hu)
    subst hu0
    rw [escSpec_nil] at hinf
    exact hinf
  | succ n ih =>
    intro p u hbs hbt hdol hu hinf
    cases u with
    | nil =>
      rw [escSpec_nil] at hinf
      exact hinf
    | cons c t =>
      have ht : t.length ≤ n := by
        simp only [List.length_cons] at hu
        omega
      have hnotbs : ∀ (p' : List Char) (X : List Char), p = bsC :: p' → p <+: X → False := by
        intro p' X hp _
        exact hbs (hp ▸ List.mem_cons_self bsC p')
      have headNot : ∀ (a : Char) (q X : List Char), a ∈ p → p = a :: q → True := by
        intro _ _ _ _ _
        trivial
      by_cases h1 : c = bsC
      · subst h1
        rw [escSpec_bs] at hinf
        rw [List.infix_cons_iff] at hinf
        rcases hinf with hpre | hinf
        · cases p with
          | nil => exact List.nil_infix
          | cons a p' =>
            rw [List.cons_prefix_cons] at hpre
            exact absurd hpre.1 (fun ha => hbs (ha ▸ List.mem_cons_self a p'))
        · rw [List.infix_cons_iff] at hinf
          rcases hinf with hpre | hinf
          · cases p with
            | nil => exact List.nil_infix
            | cons a p' =>
              rw [List.cons_prefix_cons] at hpre
              exact absurd hpre.1 (fun ha => hbs (ha ▸ List.mem_cons_self a p'))
          · exact List.infix_cons (ih p t hbs hbt hdol ht hinf)
      · by_cases h2 : c = btC
        · subst h2
          rw [escSpec_bt] at hinf
          rw [List.infix_cons_iff] at hinf
          rcases hinf with hpre | hinf
          · cases p with
            | nil => exact List.nil_infix
            | cons a p' =>
              rw [List.cons_prefix_cons] at hpre
              exact absurd hpre.1 (fun ha => hbs (ha ▸ List.mem_cons_self a p'))
          · rw [List.infix_cons_iff] at hinf
            rcases hinf with hpre | hinf
            · cases p with
              | nil => exact List.nil_infix
              | cons a p' =>
                rw [List.cons_prefix_cons] at hpre
                exact absurd hpre.1 (fun ha => hbt (ha ▸ List.mem_cons_self a p'))
            · exact List.infix_cons (ih p t hbs hbt hdol ht hinf)
        · by_cases h3 : c = dolC
          · subst h3
            cases t with
            | nil =>
              rw [escSpec_dol_nil] at hinf
              rw [List.infix_cons_iff] at hinf
              rcases hinf with hpre | hinf
              · cases p with
                | nil => exact List.nil_infix
                | cons a p' =>
                  rw [List.cons_prefix_cons] at hpre
                  exact absurd hpre.1 (fun ha => hdol (ha ▸ List.mem_cons_self a p'))
              · have := List.eq_nil_of_infix_nil hinf
                subst this
                exact List.nil_infix
            | cons d t' =>
              have ht' : t'.length ≤ n := by
                simp only [List.length_cons] at hu
                omega
              by_cases hd : d = obC
              · subst hd
                rw [escSpec_dol_ob] at hinf
                rw [List.infix_cons_iff] at hinf
                rcases hinf with hpre | hinf
                · cases p with
                  | nil => exact List.nil_infix
                  | cons a p' =>
                    rw [List.cons_prefix_cons] at hpre
                    exact absurd hpre.1 (fun ha => hbs (ha ▸ List.mem_cons_self a p'))
                · rw [List.infix_cons_iff] at hinf
                  rcases hinf with hpre | hinf
                  · cases p with
                    | nil => exact List.nil_infix
                    | cons a p' =>
                      rw [List.cons_prefix_cons] at hpre
                      exact absurd hpre.1 (fun ha => hdol (ha ▸ List.mem_cons_self a p'))
                  · rw [List.infix_cons_iff] at hinf
                    rcases hinf with hpre | hinf
                    · cases p with
                      | nil => exact List.nil_infix
                      | cons a p' =>
                        rw [List.cons_prefix_cons] at hpre
                        obtain ⟨hac, hp'⟩ := hpre
                        subst hac
                        have hp't : p' <+: t' := by
                          refine prefix_escSpec t'.length p' t' ?_ ?_ ?_ le_rfl hp'
                          · exact fun hm => hbs (List.mem_cons_of_mem _ hm)
                          · exact fun hm => hbt (List.mem_cons_of_mem _ hm)
                          · exact fun hm => hdol (List.mem_cons_of_mem _ hm)
                        have : (obC :: p') <+: (obC :: t') := by
                          rw [List.cons_prefix_cons]
                          exact ⟨rfl, hp't⟩
                        exact List.infix_cons this.isInfix
                    · have : p <:+: obC :: t' := List.infix_cons (ih p t' hbs hbt hdol ht' hinf)
                      exact List.infix_cons this
              · rw [escSpec_dol_other d t' hd] at hinf
                rw [List.infix_cons_iff] at hinf
                rcases hinf with hpre | hinf
                · cases p with
                  | nil => exact List.nil_infix
                  | cons a p' =>
                    rw [List.cons_prefix_cons] at hpre
                    exact absurd hpre.1 (fun ha => hdol (ha ▸ List.mem_cons_self a p'))
                · exact List.infix_cons (ih p (d :: t') hbs hbt hdol ht hinf)
          · rw [escSpec_other c t h1 h2 h3] at hinf
            rw [List.infix_cons_iff] at hinf
            rcases hinf with hpre | hinf
            · cases p with
              | nil => exact List.nil_infix
              | cons a p' =>
                rw [List.cons_prefix_cons] at hpre
                obtain ⟨hac, hp'⟩ := hpre
                have hp't : p' <+: t := by
                  refine prefix_escSpec t.length p' t ?_ ?_ ?_ le_rfl hp'
                  · exact fun hm => hbs (List.mem_cons_of_mem _ hm)
                  · exact fun hm => hbt (List.mem_cons_of_mem _ hm)
                  · exact fun hm => hdol (List.mem_cons_of_mem _ hm)
                have hcons : (a :: p') <+: (c :: t) := by
                  rw [List.cons_prefix_cons]
                  exact ⟨hac, hp't⟩
                exact hcons.isInfix
            · exact List.infix_cons (ih p t hbs hbt hdol ht hinf)

/-- Occurrence preservation for the source's escape chain, for patterns free
of backslash, backtick and dollar. -/
theorem infix_escapeData (p s : List Char)
    (hbs : bsC ∉ p) (hbt : btC ∉ p) (hdol : dolC ∉ p)
    (h : p <:+: escapeData s) : p <:+: s := by
  rw [escapeData_eq_escSpec] at h
  exact infix_escSpec s.length p s hbs hbt hdol le_rfl h

/-- If a non-empty pattern occurs nowhere in the haystack, `replace` is the
identity. -/
theorem replaceList_id_of_not_infix (p : Char) (ps rep : List Char) :
    ∀ s : List Char, ¬ (p :: ps) <:+: s → replaceList (p :: ps) rep s = s := by
  intro s
  induction s with
  | nil =>
    intro _
    simp [replaceList, replaceGo_nil]
  | cons c cs ih =>
    intro h
    simp only [replaceList] at ih ⊢
    rw [replaceGo_neg]
    · rw [ih (fun hi => h (List.infix_cons hi))]
    · intro hp
      exact h (List.isPrefixOf_iff_prefix.mp hp).isInfix

/-!
## JSON values and serde_json serialization

`Json` models `serde_json::Value`.  Numbers are modelled as integers (the
escaping and composition claims are number-agnostic; float formatting is not
load-bearing for any claim).  `jsonSer` is `serde_json::to_string`: compact
form, strings escaped per serde_json's writer (double quote and backslash
escaped, control characters as the short escapes for 0x08-0x0D or as
lowercase `u00XX` escapes; all other characters, including the forward slash
of a closing tag, are emitted verbatim).  On `Value` inputs
`serde_json::to_string` cannot fail, so the model is total.
-/

inductive Json where
  | jnull
  | jbool (b : Bool)
  | jnum (n : Int)
  | jstr (s : String)
  | jarr (xs : List Json)
  | jobj (fs : List (String × Json))

def hexLower (n : Nat) : Char :=
  if n < 10 then Char.ofNat (48 + n) else Char.ofNat (87 + n)

def jsonEscCh (c : Char) : List Char :=
  if c = qC then [bsC, qC]
  else if c = bsC then [bsC, bsC]
  else if c.toNat < 32 then
    if c.toNat = 8 then [bsC, Char.ofNat 98]
    else if c.toNat = 9 then [bsC, Char.ofNat 116]
    else if c.toNat = 10 then [bsC, Char.ofNat 110]
    else if c.toNat = 12 then [bsC, Char.ofNat 102]
    else if c.toNat = 13 then [bsC, Char.ofNat 114]
    else [bsC, Char.ofNat 117, Char.ofNat 48, Char.ofNat 48,
      hexLower (c.toNat / 16), hexLower (c.toNat % 16)]
  else [c]

def jsonEscStr (s : List Char) : List Char := s.flatMap jsonEscCh

/-- Serialized JSON string literal, including the surrounding quotes. -/
def jsonStrLit (s : String) : List Char := qC :: jsonEscStr s.data ++ [qC]

mutual

def jsonSer : Json → List Char
  | .jnull => "null".data
  | .jbool b => if b then "true".data else "false".data
  | .jnum n => (toString n).data
  | .jstr s => jsonStrLit s
  | .jarr xs => Char.ofNat 91 :: jsonSerArr xs ++ [Char.ofNat 93]
  | .jobj fs => obC :: jsonSerObj fs ++ [cbC]

def jsonSerArr : List Json → List Char
  | [] => []
  | [x] => jsonSer x
  | x :: y :: rest => jsonSer x ++ Char.ofNat 44 :: jsonSerArr (y :: rest)

def jsonSerObj : List (String × Json) → List Char
  | [] => []
  | [(k, v)] => jsonStrLit k ++ Char.ofNat 58 :: jsonSer v
  | (k, v) :: f :: rest =>
    (jsonStrLit k ++ Char.ofNat 58 :: jsonSer v) ++ Char.ofNat 44 :: jsonSerObj (f :: rest)

end

/-- `Value::get` on an object: first binding with the given key. -/
def jsonGet (key : String) : Json → Option Json
  | .jobj fs => (fs.find? (fun e => e.1 = key)).map (fun e => e.2)
  | _ => none

/-- `Value::as_str`. -/
def jsonAsStr : Json → Option String
  | .jstr s => some s
  | _ => none

/-- `Value::as_bool`. -/
def jsonAsBool : Json → Option Bool
  | .jbool b => some b
  | _ => none

/-!
## Request schema (`src/schemas/render.rs`)

`device_scale_factor` is an `f64` in the source; it is modelled as a rational
(it only flows into the composed page's pixel-ratio slot and is not
load-bearing for any claim).
-/

structure LibraryConfig where
  name : String
  version : String
  cdn_url : Option String

structure RenderOptions where
  width : Nat
  height : Nat
  format : String
  quality : Option Nat
  device_scale_factor : Option ℚ
  render_delay_ms : Option Nat
  poll_interval_ms : Option Nat
  timeout_ms : Option Nat
  return_base64 : Option Bool

structure RenderRequest where
  library : LibraryConfig
  data : Json
  options : RenderOptions

/-!
## Library registry

`src/core/template.rs` and `src/core/renderer.rs` consult
`crate::core::registry::LIBRARY_REGISTRY`, whose file is absent from the
sources.  The registry names, CDN URL patterns and wait selectors below are
taken from the in-repo sibling `src/registry.rs` (the file the claims cite
for the registry contents).

Modelled from the spec: the `init_script` bodies (the only part of
`core/registry.rs` that the escaping claims depend on) are reconstructed
from the specification's requirement that the `\x7bdata\x7d` token
substitute an in-page parse expression over a quoted literal
(spec section 4.2 step 4), combined with the escaping actually performed by
`core/template.rs` (backslash, backtick and dollar-brace — JavaScript
template-literal escaping), giving a `JSON.parse` over a template literal.
-/

structure LibraryTemplate where
  cdn_url : String
  wait_selector : String
  init_script : String

def echartsTemplate : LibraryTemplate :=
  { cdn_url := "https://cdn.jsdelivr.net/npm/echarts@{version}/dist/echarts.min.js"
    wait_selector := "#render-container"
    init_script := "\n  const chart = echarts.init(document.getElementById(\x27render-container\x27));\n  chart.setOption(JSON.parse(\x60{data}\x60));\n  window.renderReady = true;\n" }

def chartjsTemplate : LibraryTemplate :=
  { cdn_url := "https://cdn.jsdelivr.net/npm/chart.js@{version}/dist/chart.umd.js"
    wait_selector := "#chart-canvas"
    init_script := "\n  const ctx = document.getElementById(\x27chart-canvas\x27).getContext(\x272d\x27);\n  new Chart(ctx, JSON.parse(\x60{data}\x60));\n  window.renderReady = true;\n" }

def konvajsTemplate : LibraryTemplate :=
  { cdn_url := "https://unpkg.com/konva@{version}/konva.min.js"
    wait_selector := "#render-container"
    init_script := "\n  const stage = new Konva.Stage(\x7b container: \x27render-container\x27, width: {width}, height: {height} \x7d);\n  const layer = new Konva.Layer();\n  stage.add(layer);\n  const config = JSON.parse(\x60{data}\x60);\n  if (config.shapes) \x7b config.shapes.forEach(shape => \x7b layer.add(new Konva[shape.type](shape.config)); \x7d); \x7d\n  layer.draw();\n  window.renderReady = true;\n" }

def konvajsJsonTemplate : LibraryTemplate :=
  { cdn_url := "https://unpkg.com/konva@{version}/konva.min.js"
    wait_selector := "#render-container"
    init_script := "\n  const container = document.getElementById(\x27render-container\x27);\n  const konvaJson = JSON.parse(\x60{data}\x60);\n  const stage = Konva.Node.create(konvaJson, container);\n  stage.width({width});\n  stage.height({height});\n  window.renderReady = true;\n" }

def LIBRARY_REGISTRY : List (String × LibraryTemplate) :=
  [("apache-echarts", echartsTemplate),
   ("chartjs", chartjsTemplate),
   ("konvajs", konvajsTemplate),
   ("konvajs-json", konvajsJsonTemplate)]

def registryGet (name : String) : Option LibraryTemplate :=
  (LIBRARY_REGISTRY.find? (fun e => e.1 = name)).map (fun e => e.2)

/-!
## Page composition (`src/core/template.rs`, `generate_html`)

The composed page is represented by the tuple of values that
`generate_html` substitutes into its fixed HTML skeleton (the six `format!`
arguments); the skeleton itself is constant text and contributes nothing to
any claim.  The `solidjs-node` branch delegates to an external Node.js
process; the delegation target and its inputs are represented symbolically
by `nodeDelegate` (the process boundary is the edge of the embedding), and
the pre-spawn missing-componentCode failure is `errMissingComponentCode`.
-/

structure ComposedHtml where
  cdn_url : List Char
  init_script : List Char
  width : Nat
  height : Nat
  canvas_element : String
  device_pixel_ratio : ℚ

inductive ComposeResult where
  | page (p : ComposedHtml)
  | nodeDelegate (componentCode : String) (props : Json) (width height : Nat)
  | errMissingComponentCode
  | errUnsupported (name : String)

def ComposeResult.initScriptOf : ComposeResult → List Char
  | .page p => p.init_script
  | _ => []

def ComposeResult.cdnUrlOf : ComposeResult → Option (List Char)
  | .page p => some p.cdn_url
  | _ => none

def ComposeResult.isPage : ComposeResult → Bool
  | .page _ => true
  | _ => false

def natStr (n : Nat) : List Char := (toString n).data

/-- `generate_html_nodejs`, up to the external process boundary. -/
def generateHtmlNodejs (r : RenderRequest) : ComposeResult :=
  match (jsonGet "componentCode" r.data).bind jsonAsStr with
  | none => .errMissingComponentCode
  | some code =>
    let props := (jsonGet "props" r.data).getD (Json.jobj [])
    .nodeDelegate code props r.options.width r.options.height

def canvasElementLit : String := "<canvas id=\x22chart-canvas\x22></canvas>"

def generateHtml (r : RenderRequest) : ComposeResult :=
  if r.library.name = "solidjs-node" then generateHtmlNodejs r
  else
    match registryGet r.library.name with
    | none => .errUnsupported r.library.name
    | some tpl =>
      let cdn_url : List Char :=
        match r.library.cdn_url with
        | some u => u.data
        | none => replaceList ("{version}".data) r.library.version.data tpl.cdn_url.data
      let data_json := jsonSer r.data
      let data_json_escaped := escapeData data_json
      let init_script :=
        replaceList ("{height}".data) (natStr r.options.height)
          (replaceList ("{width}".data) (natStr r.options.width)
            (replaceList ("{data}".data) data_json_escaped tpl.init_script.data))
      let canvas := if r.library.name = "chartjs" then canvasElementLit else ""
      .page
        { cdn_url := cdn_url
          init_script := init_script
          width := r.options.width
          height := r.options.height
          canvas_element := canvas
          device_pixel_ratio := (r.options.device_scale_factor.getD 1) }

/-!
## Browser pool (`src/core/renderer.rs`, `BrowserPool`)

Sequential model of the pool.  Instances are identified by numeric ids; the
environment decides health-probe results and spawn outcomes through
`AcquireEnv`.  `members` is ghost state recording which ids were ever pool
members (initial instances and scale-up spawns); overflow instances are not
recorded.  The idle ring is the `ArrayQueue` of capacity `max_size` (FIFO:
pop from the front, push to the back, push fails when full).

The scale-up test `usage_ratio >= 0.8` is read exactly over the rationals as
`4 * current ≤ 5 * (current - available)` (with the `current = 0` guard
reflecting that a NaN or infinite ratio compares false); the `f32` rounding
of the source can differ from the exact reading only when the true ratio is
exactly at the threshold, which no claim and no concrete trace below
touches.
-/

structure PoolState where
  ring : List Nat
  currentSize : Nat
  maxSize : Nat
  nextId : Nat
  members : List Nat
deriving DecidableEq

structure AcquireEnv where
  healthy : Nat → Bool
  spawnScale : Bool
  spawnOverflow : Bool

/-- `BrowserPool::new`: spawn up to `min_size` instances (spawns may fail;
failures are logged and skipped), push them into the ring (pushes beyond the
ring capacity are dropped), fail if nothing was spawned, and set
`current_size` to the number of instances actually in the ring. -/
def poolNew (minSize maxSize : Nat) (spawnOk : Nat → Bool) : Option PoolState :=
  let ring := ((List.range minSize).filter spawnOk).take maxSize
  if ring.isEmpty then none
  else some
    { ring := ring
      currentSize := ring.length
      maxSize := maxSize
      nextId := minSize
      members := ring }

def overflowSpawn (env : AcquireEnv) (st : PoolState) : PoolState × Option Nat :=
  if env.spawnOverflow then
    ({ st with nextId := st.nextId + 1 }, some st.nextId)
  else (st, none)

/-- The scaling-then-overflow tail of `BrowserPool::acquire` (lines 156-185):
compute the usage ratio over the post-pop state, scale up when usage is at
least 0.8 and the pool is not at capacity, fall back to a temporary
(overflow) instance otherwise or when the scale-up spawn fails. -/
def acquireScale (env : AcquireEnv) (st : PoolState) : PoolState × Option Nat :=
  let current := st.currentSize
  let available := st.ring.length
  if (current ≠ 0 ∧ 4 * current ≤ 5 * (current - available)) ∧ current < st.maxSize then
    if env.spawnScale then
      ({ st with
          currentSize := min (current + 1) st.maxSize
          nextId := st.nextId + 1
          members := st.nextId :: st.members }, some st.nextId)
    else overflowSpawn env st
  else overflowSpawn env st

/-- `BrowserPool::acquire`: pop one idle instance; if its health probe
succeeds return it, otherwise discard it (without touching `current_size`)
and continue with scaling / overflow. -/
def acquire (env : AcquireEnv) (st : PoolState) : PoolState × Option Nat :=
  match st.ring with
  | i :: rest =>
    if env.healthy i then ({ st with ring := rest }, some i)
    else acquireScale env { st with ring := rest }
  | [] => acquireScale env st

/-- `BrowserPool::release`: a healthy instance is pushed back into the ring
(the push silently fails when the ring is full); an unhealthy instance is
dropped.  `current_size` and membership are never consulted. -/
def release (healthy : Bool) (st : PoolState) (i : Nat) : PoolState :=
  if healthy then
    if st.ring.length < st.maxSize then { st with ring := st.ring ++ [i] }
    else st
  else st

/-- States reachable from a successful construction by any sequence of
acquire and release steps (the released id is unconstrained, which only
enlarges the reachable set). -/
inductive Reachable : PoolState → Prop where
  | init (minSize maxSize : Nat) (spawnOk : Nat → Bool) (st : PoolState)
      (h : poolNew minSize maxSize spawnOk = some st) : Reachable st
  | acq (env : AcquireEnv) (st : PoolState) (h : Reachable st) :
      Reachable (acquire env st).1
  | rel (healthy : Bool) (i : Nat) (st : PoolState) (h : Reachable st) :
      Reachable (release healthy st i)

theorem overflowSpawn_ring (env : AcquireEnv) (st : PoolState) :
    (overflowSpawn env st).1.ring = st.ring := by
  unfold overflowSpawn
  split <;> rfl

theorem overflowSpawn_currentSize (env : AcquireEnv) (st : PoolState) :
    (overflowSpawn env st).1.currentSize = st.currentSize := by
  unfold overflowSpawn
  split <;> rfl

theorem overflowSpawn_maxSize (env : AcquireEnv) (st : PoolState) :
    (overflowSpawn env st).1.maxSize = st.maxSize := by
  unfold overflowSpawn
  split <;> rfl

theorem acquireScale_ring (env : AcquireEnv) (st : PoolState) :
    (acquireScale env st).1.ring = st.ring := by
  unfold acquireScale overflowSpawn
  dsimp only
  repeat' split
  all_goals rfl

theorem acquireScale_maxSize (env : AcquireEnv) (st : PoolState) :
    (acquireScale env st).1.maxSize = st.maxSize := by
  unfold acquireScale overflowSpawn
  dsimp only
  repeat' split
  all_goals rfl

theorem acquireScale_currentSize_le (env : AcquireEnv) (st : PoolState) :
    st.currentSize ≤ (acquireScale env st).1.currentSize := by
  unfold acquireScale overflowSpawn
  dsimp only
  repeat' split
  all_goals dsimp only
  all_goals omega

theorem acquireScale_currentSize_le_max (env : AcquireEnv) (st : PoolState)
    (h : st.currentSize ≤ st.maxSize) :
    (acquireScale env st).1.currentSize ≤ st.maxSize := by
  unfold acquireScale overflowSpawn
  dsimp only
  repeat' split
  all_goals dsimp only
  all_goals omega

theorem acquire_nil (env : AcquireEnv) (st : PoolState) (hr : st.ring = []) :
    acquire env st = acquireScale env st := by
  unfold acquire
  rw [hr]

theorem acquire_cons_healthy (env : AcquireEnv) (st : PoolState) (i : Nat) (rest : List Nat)
    (hr : st.ring = i :: rest) (hh : env.healthy i = true) :
    acquire env st = ({ st with ring := rest }, some i) := by
  unfold acquire
  rw [hr]
  dsimp only
  rw [if_pos hh]

theorem acquire_cons_unhealthy (env : AcquireEnv) (st : PoolState) (i : Nat) (rest : List Nat)
    (hr : st.ring = i :: rest) (hh : ¬ env.healthy i = true) :
    acquire env st = acquireScale env { st with ring := rest } := by
  unfold acquire
  rw [hr]
  dsimp only
  rw [if_neg hh]

/-- Pool state invariant over all reachable states: at least one pool
member is counted, `current_size` never exceeds `max_size`, and the idle
ring never holds more than `max_size` instances. -/
theorem pool_invariant (st : PoolState) (h : Reachable st) :
    1 ≤ st.currentSize ∧ st.currentSize ≤ st.maxSize ∧ st.ring.length ≤ st.maxSize := by
  induction h with
  | init minSize maxSize spawnOk st h =>
    unfold poolNew at h
    dsimp only at h
    split at h
    · exact absurd h (by simp)
    · rename_i hne
      have hlen : (((List.range minSize).filter spawnOk).take maxSize).length ≤ maxSize :=
        le_trans (List.length_take_le _ _) (by simp)
    -- extract the fields of the constructed state
      cases h
      refine ⟨?_, ?_, ?_⟩
      · have : ¬ ((List.range minSize).filter spawnOk).take maxSize = [] := by
          simpa [List.isEmpty_iff] using hne
        have := List.length_pos.mpr this
        simpa using this
      · simp only []
        exact hlen
      · simp only []
        exact hlen
  | acq env st hst ih =>
    obtain ⟨h1, h2, h3⟩ := ih
    cases hr : st.ring with
    | nil =>
      rw [acquire_nil env st hr]
      refine ⟨le_trans h1 (acquireScale_currentSize_le env st), ?_, ?_⟩
      · rw [acquireScale_maxSize]
        exact acquireScale_currentSize_le_max env st h2
      · rw [acquireScale_ring, acquireScale_maxSize, hr]
        simp
    | cons i rest =>
      by_cases hh : env.healthy i = true
      · rw [acquire_cons_healthy env st i rest hr hh]
        refine ⟨h1, h2, ?_⟩
        dsimp only
        have hle : rest.length ≤ st.ring.length := by
          rw [hr]
          simp
        exact le_trans hle h3
      · rw [acquire_cons_unhealthy env st i rest hr (by simpa using hh)]
        have h2' : ({ st with ring := rest } : PoolState).currentSize ≤
            ({ st with ring := rest } : PoolState).maxSize := h2
        refine ⟨le_trans h1 ?_, ?_, ?_⟩
        · exact acquireScale_currentSize_le env { st with ring := rest }
        · rw [acquireScale_maxSize]
          exact acquireScale_currentSize_le_max env { st with ring := rest } h2'
        · rw [acquireScale_ring, acquireScale_maxSize]
          dsimp only
          have hle : rest.length ≤ st.ring.length := by
            rw [hr]
            simp
          exact le_trans hle h3
  | rel healthy i st hst ih =>
    obtain ⟨h1, h2, h3⟩ := ih
    unfold release
    split
    · split
      · rename_i hlt
        refine ⟨h1, h2, ?_⟩
        simpa using hlt
      · exact ⟨h1, h2, h3⟩
    · exact ⟨h1, h2, h3⟩

/-!
## Readiness poll (`src/core/renderer.rs`, `wait_for_render_ready`)

Per attempt the executor evaluates `window.renderReady === true` (read
through `as_bool`, defaulting to `false`) and `window.renderError` (read
through `as_str`; any JSON string — including the empty string — counts as
an error, any non-string value, in particular the initial `null`, does not).
The environment supplies the two evaluated JSON values per attempt.
A sleep of one poll interval happens after each failed check, so a result
carrying `attempts = k` was produced after exactly `k` sleeps.
-/

inductive WaitResult where
  | ready (attempts : Nat)
  | initFailed (msg : String) (attempts : Nat)
  | timeout
deriving DecidableEq

def MAX_ATTEMPTS : Nat := 50

def waitGo (ready : Nat → Bool) (err : Nat → Option String) :
    Nat → Nat → WaitResult
  | 0, _ => .timeout
  | fuel + 1, attempts =>
    if ready attempts then .ready attempts
    else
      match err attempts with
      | some e => .initFailed e attempts
      | none => waitGo ready err fuel (attempts + 1)

def evalReady (v : Option Json) : Bool := (v.bind jsonAsBool).getD false

def evalErr (v : Option Json) : Option String := v.bind jsonAsStr

def waitFromVals (readyV errV : Nat → Option Json) : WaitResult :=
  waitGo (fun k => evalReady (readyV k)) (fun k => evalErr (errV k)) MAX_ATTEMPTS 0

theorem waitGo_step (ready : Nat → Bool) (err : Nat → Option String)
    (fuel attempts : Nat) :
    waitGo ready err (fuel + 1) attempts =
      (if ready attempts then .ready attempts
       else
         match err attempts with
         | some e => .initFailed e attempts
         | none => waitGo ready err fuel (attempts + 1)) := by
  rw [waitGo]

theorem waitGo_step_ready (ready : Nat → Bool) (err : Nat → Option String)
    (fuel attempts : Nat) (hr : ready attempts = true) :
    waitGo ready err (fuel + 1) attempts = .ready attempts := by
  rw [waitGo_step]
  simp [hr]

theorem waitGo_step_err (ready : Nat → Bool) (err : Nat → Option String)
    (fuel attempts : Nat) (e : String) (hr : ready attempts = false)
    (he : err attempts = some e) :
    waitGo ready err (fuel + 1) attempts = .initFailed e attempts := by
  rw [waitGo_step]
  simp [hr, he]

theorem waitGo_step_cont (ready : Nat → Bool) (err : Nat → Option String)
    (fuel attempts : Nat) (hr : ready attempts = false) (he : err attempts = none) :
    waitGo ready err (fuel + 1) attempts = waitGo ready err fuel (attempts + 1) := by
  rw [waitGo_step]
  simp [hr, he]

theorem waitGo_firstError (ready : Nat → Bool) (err : Nat → Option String) :
    ∀ k fuel attempts e, k < fuel →
    (∀ j, attempts ≤ j → j < attempts + k → ready j = false ∧ err j = none) →
    ready (attempts + k) = false → err (attempts + k) = some e →
    waitGo ready err fuel attempts = .initFailed e (attempts + k) := by
  intro k
  induction k with
  | zero =>
    intro fuel attempts e hk _ hready herr
    obtain ⟨fuel', rfl⟩ : ∃ fuel', fuel = fuel' + 1 := ⟨fuel - 1, by omega⟩
    simp only [Nat.add_zero] at hready herr ⊢
    exact waitGo_step_err ready err fuel' attempts e hready herr
  | succ k ih =>
    intro fuel attempts e hk hbefore hready herr
    obtain ⟨fuel', rfl⟩ : ∃ fuel', fuel = fuel' + 1 := ⟨fuel - 1, by omega⟩
    have h0 := hbefore attempts le_rfl (by omega)
    rw [waitGo_step_cont ready err fuel' attempts h0.1 h0.2]
    have harith : attempts + 1 + k = attempts + (k + 1) := by omega
    have hrec := ih fuel' (attempts + 1) e (by omega)
      (fun j hj1 hj2 => hbefore j (by omega) (by omega))
      (by rw [harith]; exact hready)
      (by rw [harith]; exact herr)
    rw [hrec, harith]

theorem waitGo_timeout (ready : Nat → Bool) (err : Nat → Option String) :
    ∀ fuel attempts,
    (∀ j, attempts ≤ j → j < attempts + fuel → ready j = false ∧ err j = none) →
    waitGo ready err fuel attempts = .timeout := by
  intro fuel
  induction fuel with
  | zero =>
    intro attempts _
    rfl
  | succ fuel ih =>
    intro attempts hall
    have h0 := hall attempts le_rfl (by omega)
    rw [waitGo_step_cont ready err fuel attempts h0.1 h0.2]
    exact ih (attempts + 1) (fun j hj1 hj2 => hall j (by omega) (by omega))

/-!
## Post-ready delay and base64 facade (`src/core/renderer.rs`)
-/

def POLL_INTERVAL_MS : Nat := 100

/-- The poll interval actually used by the loop (lines 368-369). -/
def pollIntervalMs (o : RenderOptions) : Nat := o.poll_interval_ms.getD POLL_INTERVAL_MS

/-- The one extra sleep taken after readiness (lines 403-405): the code
reads `poll_interval_ms` again; `render_delay_ms` is never consulted. -/
def postReadySleepMs (o : RenderOptions) : Nat := o.poll_interval_ms.getD POLL_INTERVAL_MS

/-- The post-ready delay in the words of the spec (section 4.5.1):
`render_delay_ms` if supplied, else the poll interval.  Stated for
comparison with `postReadySleepMs`; not part of the source. -/
def specPostReadySleepMs (o : RenderOptions) : Nat :=
  o.render_delay_ms.getD (o.poll_interval_ms.getD POLL_INTERVAL_MS)

def b64Alphabet : List Char :=
  "ABCDEFGHIJKLMNOPQRSTUVWXYZabcdefghijklmnopqrstuvwxyz0123456789+/".data

def b64Char (n : Nat) : Char := b64Alphabet.getD n (Char.ofNat 65)

/-- Padding character of the standard alphabet. -/
def padC : Char := Char.ofNat 61

/-- RFC 4648 standard base64 with padding (`base64::engine::general_purpose::STANDARD`). -/
def base64Encode : List Nat → List Char
  | [] => []
  | [a] => [b64Char (a / 4), b64Char (a % 4 * 16), padC, padC]
  | [a, b] => [b64Char (a / 4), b64Char (a % 4 * 16 + b / 16), b64Char (b % 16 * 4), padC]
  | a :: b :: c :: rest =>
    b64Char (a / 4) :: b64Char (a % 4 * 16 + b / 16) :: b64Char (b % 16 * 4 + c / 64) ::
      b64Char (c % 64) :: base64Encode rest

structure Base64Response where
  data : List Char
  mime_type : String
deriving DecidableEq

/-- The format-to-MIME table of `render_base64` (lines 280-285). -/
def mimeTypeFor (format : String) : String :=
  if format = "png" then "image/png"
  else if format = "jpeg" ∨ format = "jpg" then "image/jpeg"
  else if format = "pdf" then "application/pdf"
  else "application/octet-stream"

/-- `render_base64`: run `render` on the same request, base64-encode the
bytes it returns, and pair them with the MIME type of `options.format`.
The underlying `render` is passed as a parameter (it is the engine's
effectful pipeline). -/
def renderBase64 (render : RenderRequest → Except String (List Nat))
    (r : RenderRequest) : Except String Base64Response :=
  match render r with
  | .ok bytes =>
    .ok { data := base64Encode bytes, mime_type := mimeTypeFor r.options.format }
  | .error e => .error e

/-!
## Shared helpers for the claim theorems
-/

theorem replaceList_noop (pat rep s : List Char) (hne : pat ≠ [])
    (h : ¬ pat <:+: s) : replaceList pat rep s = s := by
  cases pat with
  | nil => exact absurd rfl hne
  | cons p ps => exact replaceList_id_of_not_infix p ps rep s h

theorem registryGet_ne_solid (name : String) (tpl : LibraryTemplate)
    (h : registryGet name = some tpl) : ¬ name = "solidjs-node" := by
  intro hn
  rw [hn] at h
  have hnone : registryGet "solidjs-node" = none := by rfl
  exact Option.noConfusion (hnone.symm.trans h)

def baseOptions : RenderOptions :=
  { width := 800
    height := 600
    format := "png"
    quality := none
    device_scale_factor := none
    render_delay_ms := none
    poll_interval_ms := none
    timeout_ms := none
    return_base64 := none }

def closeScriptPat : List Char := "</script".data

def widthTok : List Char := "{width}".data

def heightTok : List Char := "{height}".data

/-- The escaped payload as embedded by `generate_html` (lines 84-89). -/
def dataJsonEscaped (d : Json) : List Char := escapeData (jsonSer d)

/-- Executable occurrence check (used to evaluate concrete counterexamples). -/
def infixCheck (pat : List Char) : List Char → Bool
  | [] => pat.isEmpty
  | c :: t => pat.isPrefixOf (c :: t) || infixCheck pat t

theorem infixCheck_iff (pat : List Char) :
    ∀ s : List Char, infixCheck pat s = true ↔ pat <:+: s := by
  intro s
  induction s with
  | nil =>
    constructor
    · intro h
      have : pat = [] := by
        simpa [infixCheck, List.isEmpty_iff] using h
      simp [this]
    · intro h
      have : pat = [] := List.eq_nil_of_infix_nil h
      simp [infixCheck, this]
  | cons c t ih =>
    constructor
    · intro h
      rcases (by simpa [infixCheck] using h :
          pat.isPrefixOf (c :: t) = true ∨ infixCheck pat t = true) with hp | hi
      · exact (List.isPrefixOf_iff_prefix.mp hp).isInfix
      · exact List.infix_cons (ih.mp hi)
    · intro h
      rcases List.infix_cons_iff.mp h with hp | hi
      · simp [infixCheck, List.isPrefixOf_iff_prefix.mpr hp]
      · simp [infixCheck, ih.mpr hi]

/-!
## Claim C1 — data escaping
-/

def c1BadReq : RenderRequest :=
  { library := { name := "apache-echarts", version := "5.4.0", cdn_url := none }
    data := Json.jstr "</script>"
    options := baseOptions }

/-- C1 (counterexample): for the JSON string `</script>` the serialized
payload — and hence the init script of the page composed by `generate_html`,
which is emitted inside an inline `<script>` element — contains the
script-closing tag verbatim (the escaping chain touches only backslash,
backtick and dollar-brace).  By HTML parsing rules the inline script element
ends at that tag, so this input does break the generated init script,
contradicting the claim. -/
theorem c1_counterexample :
    closeScriptPat <:+: jsonSer c1BadReq.data ∧
    closeScriptPat <:+: (generateHtml c1BadReq).initScriptOf := by
  constructor
  · decide
  · exact (infixCheck_iff closeScriptPat _).mp (by rfl)

/-- C1 (amended): at the JavaScript level the embedding is sound: for every
JSON value the escaped payload stays inside its template literal and its
cooked value is exactly the serialized JSON (so single quote, double quote,
backtick, newline and dollar-brace inputs do not break the init script and
the value round-trips through the in-page `JSON.parse`); the width/height
token substitutions leave the payload intact provided the serialized JSON
does not itself contain those tokens; and the escaping introduces no
occurrence of the script-closing tag.  What the composer does not guard
against is the HTML level: a payload containing `</script` (see the
counterexample) terminates the inline script element early. -/
theorem c1_amended (d : Json) (w h : Nat)
    (hw : ¬ widthTok <:+: jsonSer d)
    (hh : ¬ heightTok <:+: jsonSer d) :
    tlScan (dataJsonEscaped d) = some (jsonSer d) ∧
    replaceList heightTok (natStr h)
      (replaceList widthTok (natStr w) (dataJsonEscaped d)) = dataJsonEscaped d ∧
    (¬ closeScriptPat <:+: jsonSer d → ¬ closeScriptPat <:+: dataJsonEscaped d) := by
  have hwE : ¬ widthTok <:+: dataJsonEscaped d := fun hc =>
    hw (infix_escapeData widthTok (jsonSer d) (by decide) (by decide) (by decide) hc)
  have hhE : ¬ heightTok <:+: dataJsonEscaped d := fun hc =>
    hh (infix_escapeData heightTok (jsonSer d) (by decide) (by decide) (by decide) hc)
  refine ⟨?_, ?_, ?_⟩
  · unfold dataJsonEscaped
    rw [escapeData_eq_escSpec]
    exact tlScan_escSpec (jsonSer d).length (jsonSer d) le_rfl
  · rw [replaceList_noop widthTok (natStr w) _ (by decide) hwE,
      replaceList_noop heightTok (natStr h) _ (by decide) hhE]
  · intro hcs hc
    exact hcs (infix_escapeData closeScriptPat (jsonSer d)
      (by decide) (by decide) (by decide) hc)

def c1WitData : Json := Json.jobj [("a", Json.jstr "x\x27y\x22z\x60w\n$\x7bq\x7d")]

theorem c1_witness :
    tlScan (dataJsonEscaped c1WitData) = some (jsonSer c1WitData) ∧
    ¬ closeScriptPat <:+: dataJsonEscaped c1WitData := by
  have h := c1_amended c1WitData 800 600 (by decide) (by decide)
  exact ⟨h.1, h.2.2 (by decide)⟩

/-!
## Claim C2 — CDN URL validation
-/

def cdnAllowList : List String := ["cdn.jsdelivr.net", "unpkg.com", "cdnjs.cloudflare.com"]

/-- The CDN validator in the words of the spec (section 4.2 step 3): https
scheme and host in the allow-list.  Stated for comparison; not part of the
source, which contains no validation at all. -/
def specCdnValid (u : String) : Bool :=
  ("https://".data).isPrefixOf u.data &&
    (cdnAllowList.map String.data).contains
      ((u.data.drop 8).takeWhile (fun c => !(c == Char.ofNat 47 || c == Char.ofNat 58)))

def c2BadReq : RenderRequest :=
  { library :=
      { name := "apache-echarts", version := "5.4.0"
        cdn_url := some "http://evil.example/x.js" }
    data := Json.jnull
    options := baseOptions }

/-- C2: the spec mandates validation of every caller-supplied CDN URL
(https scheme, allow-listed host, `InvalidCdn` on any failure; spec section
4.2 step 3, invariant 5, scenario 6), but the code contains no validation at
all: `generate_html` lines 78-82 are a plain `unwrap_or_else`.  Evaluating
the code at the failing input — a request carrying
`cdn_url = http://evil.example/x.js`, which fails the mandated validation —
shows composition succeeding and the URL embedded verbatim, where the claim
requires rejection with `InvalidCdn` (an error the code cannot produce). -/
theorem c2_no_validation :
    specCdnValid "http://evil.example/x.js" = false ∧
    (generateHtml c2BadReq).isPage = true ∧
    (generateHtml c2BadReq).cdnUrlOf = some ("http://evil.example/x.js".data) := by
  refine ⟨by rfl, by rfl, by rfl⟩

/-- The general form of the missing check: for every registered library, any
caller-supplied `cdn_url` — regardless of whether it parses, uses https, or
points at an allow-listed host — is accepted and used verbatim as the
page's script source. -/
theorem cdn_used_verbatim (r : RenderRequest) (tpl : LibraryTemplate) (u : String)
    (hreg : registryGet r.library.name = some tpl)
    (hcdn : r.library.cdn_url = some u) :
    (generateHtml r).isPage = true ∧
    (generateHtml r).cdnUrlOf = some u.data := by
  have hname := registryGet_ne_solid _ _ hreg
  unfold generateHtml
  rw [if_neg hname, hreg]
  dsimp only
  rw [hcdn]
  exact ⟨rfl, rfl⟩

def c2WitReq : RenderRequest :=
  { library :=
      { name := "apache-echarts", version := "5.4.0"
        cdn_url := some "https://evil.example/x.js" }
    data := Json.jnull
    options := baseOptions }

theorem cdn_used_verbatim_example :
    (generateHtml c2WitReq).isPage = true ∧
    (generateHtml c2WitReq).cdnUrlOf = some ("https://evil.example/x.js".data) :=
  cdn_used_verbatim c2WitReq echartsTemplate "https://evil.example/x.js" (by rfl) (by rfl)

/-!
## Claim C3 — post-ready delay
-/

def c3FailingOptions : RenderOptions :=
  { width := 800
    height := 600
    format := "png"
    quality := none
    device_scale_factor := none
    render_delay_ms := some 2000
    poll_interval_ms := some 50
    timeout_ms := none
    return_base64 := none }

/-- C3: the post-ready sleep of `wait_for_render_ready` (lines 403-405)
always equals the poll interval; `render_delay_ms` is never consulted, even
though the schema documents it as the post-ready delay.  At the failing
input (`render_delay_ms = 2000`, `poll_interval_ms = 50`) the code sleeps
50 ms where the claim (and the field's own documentation) requires 2000 ms. -/
theorem c3_divergence :
    (∀ o : RenderOptions, postReadySleepMs o = pollIntervalMs o) ∧
    postReadySleepMs c3FailingOptions = 50 ∧
    specPostReadySleepMs c3FailingOptions = 2000 ∧
    postReadySleepMs c3FailingOptions ≠ specPostReadySleepMs c3FailingOptions := by
  refine ⟨fun o => rfl, by rfl, by rfl, by decide⟩

/-!
## Claim C4 — readiness fail-fast and timeout
-/

/-- C4: during the readiness poll, the error channel is checked once per
iteration before the sleep.  If iteration `k` (counting from 0) is the
first at which `window.renderError` reads as a string `e` while
`renderReady` is not `true`, the loop returns the init-failure carrying
exactly `e` at attempt `k` — after exactly `k` sleeps, i.e. without
consuming any further poll interval, rather than continuing through the
remaining attempt budget.  (Non-empty strings are a special case of the
strings covered.)  If neither channel fires for all `MAX_ATTEMPTS = 50`
iterations, the loop returns the readiness timeout. -/
theorem c4_readiness (readyV errV : Nat → Option Json) :
    (∀ k e, k < MAX_ATTEMPTS →
      (∀ j, j < k → evalReady (readyV j) = false ∧ evalErr (errV j) = none) →
      evalReady (readyV k) = false → evalErr (errV k) = some e →
      waitFromVals readyV errV = .initFailed e k) ∧
    ((∀ j, j < MAX_ATTEMPTS → evalReady (readyV j) = false ∧ evalErr (errV j) = none) →
      waitFromVals readyV errV = .timeout) := by
  constructor
  · intro k e hk hbefore hready herr
    unfold waitFromVals
    have h := waitGo_firstError (fun j => evalReady (readyV j)) (fun j => evalErr (errV j))
      k MAX_ATTEMPTS 0 e hk (fun j hj1 hj2 => hbefore j (by omega))
      (by simpa using hready) (by simpa using herr)
    simpa using h
  · intro hall
    unfold waitFromVals
    exact waitGo_timeout _ _ MAX_ATTEMPTS 0 (fun j hj1 hj2 => hall j (by omega))

def c4ReadyV : Nat → Option Json := fun _ => some (Json.jbool false)

def c4ErrV : Nat → Option Json := fun k => if k = 3 then some (Json.jstr "boom") else none

theorem c4_witness :
    waitFromVals c4ReadyV c4ErrV = .initFailed "boom" 3 ∧
    waitFromVals c4ReadyV (fun _ => none) = .timeout := by
  constructor
  · exact (c4_readiness c4ReadyV c4ErrV).1 3 "boom" (by decide) (by decide) (by rfl) (by rfl)
  · exact (c4_readiness c4ReadyV (fun _ => none)).2 (by decide)

/-!
## Claim C5 — release of overflow instances
-/

def allHealthyEnv : AcquireEnv :=
  { healthy := fun _ => true, spawnScale := true, spawnOverflow := true }

def c5St0 : PoolState :=
  { ring := [0], currentSize := 1, maxSize := 2, nextId := 1, members := [0] }

def c5St3 : PoolState :=
  (acquire allHealthyEnv (acquire allHealthyEnv (acquire allHealthyEnv c5St0).1).1).1

/-- C5 (counterexample): start a pool with `min = 1`, `max = 2`; three
acquires hand out the initial instance (id 0), a scale-up member (id 1) and
then — the pool being at capacity — a temporary overflow instance (id 2,
absent from the ghost member set).  Releasing the healthy overflow instance
while the ring has free space enqueues it into the idle ring instead of
dropping it: `release` never distinguishes overflow instances. -/
theorem c5_counterexample :
    poolNew 1 2 (fun _ => true) = some c5St0 ∧
    (acquire allHealthyEnv (acquire allHealthyEnv (acquire allHealthyEnv c5St0).1).1).2 =
      some 2 ∧
    2 ∉ c5St3.members ∧
    c5St3.ring.length < c5St3.maxSize ∧
    (release true c5St3 2).ring = [2] := by
  refine ⟨by decide, by decide, by decide, by decide, by decide⟩

/-- C5 (amended): the release path never consults pool membership.  Any
instance — overflow instances included — whose final health probe succeeds
is enqueued into the idle ring whenever the ring has free space; it is
dropped only when the ring is full or the probe fails. -/
theorem c5_amended (st : PoolState) (i : Nat) (_hmem : i ∉ st.members) :
    (st.ring.length < st.maxSize → (release true st i).ring = st.ring ++ [i]) ∧
    (st.maxSize ≤ st.ring.length → release true st i = st) ∧
    release false st i = st := by
  refine ⟨?_, ?_, ?_⟩
  · intro hlt
    unfold release
    rw [if_pos rfl, if_pos hlt]
  · intro hge
    unfold release
    rw [if_pos rfl, if_neg (by omega)]
  · unfold release
    rw [if_neg (by simp)]

theorem c5_witness :
    (release true c5St3 2).ring = c5St3.ring ++ [2] :=
  (c5_amended c5St3 2 (by decide)).1 (by decide)

/-!
## Claim C6 — unhealthy idle instances
-/

def c6Env : AcquireEnv :=
  { healthy := fun _ => false, spawnScale := true, spawnOverflow := true }

def c6St : PoolState :=
  { ring := [0], currentSize := 1, maxSize := 1, nextId := 1, members := [0] }

/-- C6 (counterexample): the pool holds one idle pool member (id 0) whose
health probe fails.  Acquire pops and discards it, but `current_size`
remains 1 — the decrement the claim requires never happens anywhere in the
source (no path ever decreases `current_size`). -/
theorem c6_counterexample :
    poolNew 1 1 (fun _ => true) = some c6St ∧
    0 ∈ c6St.members ∧
    c6Env.healthy 0 = false ∧
    (acquire c6Env c6St).1.currentSize = 1 ∧
    ¬ (acquire c6Env c6St).1.currentSize = c6St.currentSize - 1 := by
  refine ⟨by decide, by decide, by decide, by decide, by decide⟩

/-- C6 (amended): when the popped idle instance probes unhealthy it is
discarded (it appears in no component of the successor state's ring) and
acquire proceeds with scaling or overflow, but `current_size` is **not**
decremented — acquire never decreases it, and release never changes it. -/
theorem c6_amended (env : AcquireEnv) (st : PoolState) (i : Nat) (rest : List Nat)
    (hr : st.ring = i :: rest) (hh : env.healthy i = false) :
    (acquire env st).1.ring = rest ∧
    st.currentSize ≤ (acquire env st).1.currentSize ∧
    ∀ (hb : Bool) (j : Nat), (release hb st j).currentSize = st.currentSize := by
  rw [acquire_cons_unhealthy env st i rest hr (by simp [hh])]
  refine ⟨?_, ?_, ?_⟩
  · rw [acquireScale_ring]
  · exact acquireScale_currentSize_le env { st with ring := rest }
  · intro hb j
    unfold release
    repeat' split
    all_goals rfl

theorem c6_witness :
    (acquire c6Env c6St).1.ring = [] ∧
    c6St.currentSize ≤ (acquire c6Env c6St).1.currentSize :=
  ⟨(c6_amended c6Env c6St 0 [] (by rfl) (by rfl)).1,
   (c6_amended c6Env c6St 0 [] (by rfl) (by rfl)).2.1⟩

/-!
## Claim C7 — pool size bounds
-/

def c7FailSpawn : Nat → Bool := fun i => i == 0

def c7BadState : PoolState :=
  { ring := [0], currentSize := 1, maxSize := 2, nextId := 2, members := [0] }

/-- C7 (counterexample): construction tolerates partial spawn failure.  With
`min_size = 2`, `max_size = 2` and the second initial spawn failing,
`BrowserPool::new` succeeds with `current_size = 1 < min_size`, and this
deficit persists after construction — the lower bound of the claimed
invariant does not hold for all reachable states. -/
theorem c7_counterexample :
    poolNew 2 2 c7FailSpawn = some c7BadState ∧
    Reachable c7BadState ∧
    c7BadState.currentSize < 2 := by
  refine ⟨by decide, Reachable.init 2 2 c7FailSpawn c7BadState (by decide), by decide⟩

/-- C7 (amended): for every reachable pool state, `current_size` stays
between 1 (something was spawned, or construction would have failed) and
`max_size`, and the idle ring never holds more than `max_size` instances;
the claimed lower bound `min_size` holds only when every construction spawn
succeeds (see the counterexample). -/
theorem c7_amended (st : PoolState) (h : Reachable st) :
    1 ≤ st.currentSize ∧ st.currentSize ≤ st.maxSize ∧
    st.ring.length ≤ st.maxSize :=
  pool_invariant st h

def c7WitState : PoolState :=
  { ring := [0], currentSize := 1, maxSize := 1, nextId := 1, members := [0] }

theorem c7_witness :
    1 ≤ c7WitState.currentSize ∧ c7WitState.currentSize ≤ c7WitState.maxSize ∧
    c7WitState.ring.length ≤ c7WitState.maxSize :=
  c7_amended c7WitState (Reachable.init 1 1 (fun _ => true) c7WitState (by decide))

/-!
## Claim C8 — registry lookup failures
-/

def c8NodeReq : RenderRequest :=
  { library := { name := "solidjs-node", version := "1.0", cdn_url := none }
    data := Json.jnull
    options := baseOptions }

/-- C8 (counterexample): the name `solidjs-node` is absent from the
registry, yet composition for it does not fail with the unsupported-library
error: the branch at the top of `generate_html` bypasses the registry and
delegates to the Node.js SSR path (here failing earlier because `data`
carries no `componentCode`). -/
theorem c8_counterexample :
    registryGet "solidjs-node" = none ∧
    generateHtml c8NodeReq = ComposeResult.errMissingComponentCode ∧
    ∀ nm : String, generateHtml c8NodeReq ≠ ComposeResult.errUnsupported nm := by
  refine ⟨by rfl, by rfl, ?_⟩
  intro nm h
  exact ComposeResult.noConfusion
    ((by rfl : generateHtml c8NodeReq = ComposeResult.errMissingComponentCode).symm.trans h)

/-- C8 (amended): for every library name other than `solidjs-node`,
composition fails with the unsupported-library error exactly when the name
is not a key of the registry (for registered names it always succeeds —
serialization of a JSON value cannot fail); the name `solidjs-node`
bypasses the registry entirely. -/
theorem c8_amended (r : RenderRequest) (hname : r.library.name ≠ "solidjs-node") :
    generateHtml r = ComposeResult.errUnsupported r.library.name ↔
      registryGet r.library.name = none := by
  unfold generateHtml
  rw [if_neg hname]
  cases hreg : registryGet r.library.name with
  | none =>
    dsimp only
    exact ⟨fun _ => rfl, fun _ => rfl⟩
  | some tpl =>
    dsimp only
    constructor
    · intro h
      exact ComposeResult.noConfusion h
    · intro h
      exact Option.noConfusion h

def c8WitReq : RenderRequest :=
  { library := { name := "no-such-lib", version := "1.0", cdn_url := none }
    data := Json.jnull
    options := baseOptions }

theorem c8_witness :
    generateHtml c8WitReq = ComposeResult.errUnsupported "no-such-lib" :=
  (c8_amended c8WitReq (by decide)).mpr (by rfl)

/-!
## Claim C9 — base64 variant
-/

/-- C9: `render_base64` runs `render` on the same request, returns exactly
the base64 encoding of the bytes `render` produced, and pairs them with a
MIME type that is a pure function of `options.format` following the table
png to image/png, jpeg and jpg to image/jpeg, pdf to application/pdf,
anything else to application/octet-stream. -/
theorem c9_base64 (render : RenderRequest → Except String (List Nat))
    (r : RenderRequest) (bytes : List Nat) (h : render r = .ok bytes) :
    renderBase64 render r =
      .ok { data := base64Encode bytes, mime_type := mimeTypeFor r.options.format } ∧
    mimeTypeFor "png" = "image/png" ∧
    mimeTypeFor "jpeg" = "image/jpeg" ∧
    mimeTypeFor "jpg" = "image/jpeg" ∧
    mimeTypeFor "pdf" = "application/pdf" ∧
    (∀ f : String, f ≠ "png" → f ≠ "jpeg" → f ≠ "jpg" → f ≠ "pdf" →
      mimeTypeFor f = "application/octet-stream") := by
  refine ⟨?_, by decide, by decide, by decide, by decide, ?_⟩
  · unfold renderBase64
    rw [h]
  · intro f h1 h2 h3 h4
    unfold mimeTypeFor
    rw [if_neg h1, if_neg (by simp [h2, h3]), if_neg h4]

def c9Render : RenderRequest → Except String (List Nat) := fun _ => .ok [77, 97, 110]

def c9Req : RenderRequest :=
  { library := { name := "apache-echarts", version := "5.4.0", cdn_url := none }
    data := Json.jnull
    options := baseOptions }

theorem c9_witness :
    renderBase64 c9Render c9Req = .ok { data := "TWFu".data, mime_type := "image/png" } := by
  rw [(c9_base64 c9Render c9Req [77, 97, 110] rfl).1]
  rfl

/-!
## Claim C10 — empty renderError string
-/

/-- C10: the error check of the readiness poll reads `window.renderError`
through `as_str`, which accepts every JSON string including the empty one.
If the page sets `renderError` to the empty string at the first poll (with
`renderReady` not yet `true`), the loop aborts immediately — at attempt 0,
before any sleep — with an init failure carrying the empty message. -/
theorem c10_empty_error (readyV errV : Nat → Option Json)
    (hready : evalReady (readyV 0) = false)
    (herr : errV 0 = some (Json.jstr "")) :
    waitFromVals readyV errV = .initFailed "" 0 := by
  unfold waitFromVals
  exact waitGo_step_err _ _ 49 0 "" hready (by simp [evalErr, herr, jsonAsStr])

theorem c10_witness :
    waitFromVals (fun _ => some (Json.jbool false)) (fun _ => some (Json.jstr "")) =
      .initFailed "" 0 :=
  c10_empty_error _ _ (by rfl) (by rfl)

end RenderVerify
